import Mathlib

/-
Verification of the protocol-mve-transport multiplexing layer.

The development shallowly embeds the transport core from src/lib.rs:
* `MuxState` mirrors `TransportInner` field for field: the physical inbound
  stream (a finite list of items, each either a byte frame or a stream error;
  the end of the list is stream closure), the u32 handle counter, the physical
  sink state, and the per-handle out-of-order buffer.
* `readLoop`/`read` mirror `TransportInner::read`: pop the oldest buffered
  frame for the requested handle if present, otherwise pull frames from the
  stream, buffering mismatching frames under their own leading handle.
* `write` mirrors `Write::write for Transport`: 4-byte big-endian handle
  followed by the encoded payload, sent as one item.
* `next_id` and the fork/join flavors mirror `TransportInner::next_id` and the
  `CloneContext`/`ShareContext`/`ReferenceContext` impls; u32 overflow is
  modelled with an explicit mod 2^32 (release-mode wrapping semantics).
* `unravelPoll` mirrors `Future for Unravel`: the Target/Finalize two-phase
  state machine, with the external value-protocol futures abstracted as
  explicit step functions.
* `finalize`/`finalize_immediate` mirror the `Finalize`/`FinalizeImmediate`
  impls, with the spawn capability abstracted as a function receiving the
  output-erased task.
The serialization codec (bincode) and the physical sink are pluggable in the
source; they appear as function parameters here.
-/

namespace MveT

/-- A byte frame on the physical channel, as delivered by the underlying
stream (a discrete whole item). -/
abbrev Bytes := List Nat

/-- The out-of-order buffer of TransportInner: frames received for a handle
but not yet consumed, oldest first.  A handle with no entry and a handle with
an empty queue behave identically in the source, so a total function to lists
is a faithful model of the HashMap of VecDeques. -/
abbrev Buffer := Nat → List Bytes

/-- Replace the queue stored for handle h. -/
def bufSet (buf : Buffer) (h : Nat) (q : List Bytes) : Buffer :=
  fun k => if k = h then q else buf k

/-- State of TransportInner: physical inbound stream (finite; end of list is
stream closure), next-handle counter, physical sink state, per-handle buffer. -/
structure MuxState (E Sk : Type) where
  stream : List (Except E Bytes)
  nextId : Nat
  sink : Sk
  buffer : Buffer

/-- SerdeReadError from src/lib.rs. -/
inductive SerdeReadError (E D : Type) where
  | Stream (e : E)
  | Serde (d : D)
  | Insufficient
  | Terminated
deriving DecidableEq

/-- SerdeWriteError from src/lib.rs. -/
inductive SerdeWriteError (Es D : Type) where
  | Sink (e : Es)
  | Serde (d : D)
deriving DecidableEq

/-- u32::from_be_bytes of the first four bytes of a frame. -/
def beToNat32 : Bytes → Nat
  | a :: b :: c :: d :: _ => ((a * 256 + b) * 256 + c) * 256 + d
  | _ => 0

/-- The leading handle of a frame (meaningful when the frame has ≥ 4 bytes). -/
def tagOf (d : Bytes) : Nat := beToNat32 d

/-- u32::to_be_bytes of a handle. -/
def natToBe32 (n : Nat) : Bytes :=
  [n / 16777216 % 256, n / 65536 % 256, n / 256 % 256, n % 256]

variable {E Sk D I : Type}

/-- Decode the payload of a frame (everything after the 4-byte handle),
wrapping codec errors as SerdeReadError.Serde — from_slice of data[4..]. -/
def decodeFrame (dec : Bytes → Except D I) (d : Bytes) :
    Except (SerdeReadError E D) I :=
  (dec (d.drop 4)).mapError .Serde

/-- The pull loop of TransportInner::read: pull items from the physical
stream until one carries the requested handle, buffering every mismatching
frame under its own leading handle.  Returns the read result, the remaining
stream, and the updated buffer. -/
def readLoop (dec : Bytes → Except D I) (h : Nat) :
    List (Except E Bytes) → Buffer →
      Except (SerdeReadError E D) I × List (Except E Bytes) × Buffer
  | [], buf => (.error .Terminated, [], buf)
  | .error e :: rest, buf => (.error (.Stream e), rest, buf)
  | .ok data :: rest, buf =>
    if data.length < 4 then (.error .Insufficient, rest, buf)
    else if tagOf data = h then (decodeFrame dec data, rest, buf)
    else readLoop dec h rest (bufSet buf (tagOf data) (buf (tagOf data) ++ [data]))

/-- TransportInner::read for one handle: pop the oldest buffered frame for
the handle if any (without touching the stream), otherwise pull from the
physical stream via readLoop. -/
def read (dec : Bytes → Except D I) (h : Nat) (s : MuxState E Sk) :
    Except (SerdeReadError E D) I × MuxState E Sk :=
  match s.buffer h with
  | d :: ds => (decodeFrame dec d, { s with buffer := bufSet s.buffer h ds })
  | [] =>
    let r := readLoop dec h s.stream s.buffer
    (r.1, { s with stream := r.2.1, buffer := r.2.2 })

/-- n repeated calls to read for the same handle, threading the state. -/
def reads (dec : Bytes → Except D I) (h : Nat) :
    Nat → MuxState E Sk → List (Except (SerdeReadError E D) I) × MuxState E Sk
  | 0, s => ([], s)
  | n + 1, s =>
    let r := read dec h s
    let rs := reads dec h n r.2
    (r.1 :: rs.1, rs.2)

theorem bufSet_apply_self (buf : Buffer) (h : Nat) (q : List Bytes) :
    bufSet buf h q h = q := by
  simp [bufSet]

theorem bufSet_apply_ne (buf : Buffer) {h k : Nat} (q : List Bytes)
    (hk : k ≠ h) : bufSet buf h q k = buf k := by
  simp [bufSet, hk]

theorem bufSet_self (buf : Buffer) (h : Nat) : bufSet buf h (buf h) = buf := by
  funext k
  by_cases hk : k = h <;> simp [bufSet, hk]

theorem bufSet_bufSet (buf : Buffer) (h : Nat) (a b : List Bytes) :
    bufSet (bufSet buf h a) h b = bufSet buf h b := by
  funext k
  by_cases hk : k = h <;> simp [bufSet, hk]

/-- A read whose handle has a buffered frame pops it, leaving the stream and
the rest of the state untouched. -/
theorem read_pop (dec : Bytes → Except D I) (h : Nat) (s : MuxState E Sk)
    {d : Bytes} {ds : List Bytes} (hb : s.buffer h = d :: ds) :
    read dec h s = (decodeFrame dec d, { s with buffer := bufSet s.buffer h ds }) := by
  simp only [read, hb]

/-- A read whose handle has no buffered frame and whose stream head is a
well-formed frame for a different handle appends that frame to the other
handle's queue and pulls again: it behaves exactly like a read on the state
with the head consumed and buffered. -/
theorem read_skip (dec : Bytes → Except D I) (h : Nat) (s : MuxState E Sk)
    {d : Bytes} {rest : List (Except E Bytes)}
    (hb : s.buffer h = []) (hs : s.stream = .ok d :: rest)
    (hlen : 4 ≤ d.length) (htag : tagOf d ≠ h) :
    read dec h s =
      read dec h
        { s with
          stream := rest
          buffer := bufSet s.buffer (tagOf d) (s.buffer (tagOf d) ++ [d]) } := by
  have hb2 : bufSet s.buffer (tagOf d) (s.buffer (tagOf d) ++ [d]) h = [] :=
    (bufSet_apply_ne _ _ (fun hc => htag hc.symm)).trans hb
  have hlt : ¬ d.length < 4 := Nat.not_lt.mpr hlen
  simp only [read, hs, hb, hb2, readLoop, if_neg hlt, if_neg htag]

/-- A read whose handle has no buffered frame and whose stream head is a
well-formed frame for the requested handle returns its decoded payload and
consumes it, leaving the buffer untouched. -/
theorem read_match (dec : Bytes → Except D I) (h : Nat) (s : MuxState E Sk)
    {d : Bytes} {rest : List (Except E Bytes)}
    (hb : s.buffer h = []) (hs : s.stream = .ok d :: rest)
    (hlen : 4 ≤ d.length) (htag : tagOf d = h) :
    read dec h s = (decodeFrame dec d, { s with stream := rest }) := by
  have hlt : ¬ d.length < 4 := Nat.not_lt.mpr hlen
  simp only [read, hs, hb, readLoop, if_neg hlt, if_pos htag]

/-- Splitting a run of reads into two consecutive runs. -/
theorem reads_add (dec : Bytes → Except D I) (h : Nat) (m n : Nat)
    (s : MuxState E Sk) :
    reads dec h (m + n) s =
      ((reads dec h m s).1 ++ (reads dec h n (reads dec h m s).2).1,
        (reads dec h n (reads dec h m s).2).2) := by
  induction m generalizing s with
  | zero => simp [reads]
  | succ m ih =>
    have : m + 1 + n = (m + n) + 1 := by omega
    rw [this]
    simp only [reads, ih]
    simp

/-- Draining the buffered frames for a handle: as many reads as there are
buffered frames return exactly those frames' decoded payloads, oldest first,
without touching the stream. -/
theorem reads_drain (dec : Bytes → Except D I) (h : Nat) :
    ∀ (q : List Bytes) (s : MuxState E Sk), s.buffer h = q →
      reads dec h q.length s =
        (q.map (decodeFrame dec), { s with buffer := bufSet s.buffer h [] }) := by
  intro q
  induction q with
  | nil =>
    intro s hb
    have : bufSet s.buffer h [] = s.buffer := hb ▸ bufSet_self s.buffer h
    simp [reads, this]
  | cons d ds ih =>
    intro s hb
    have hpop := read_pop dec h s hb
    have hb1 : ({ s with buffer := bufSet s.buffer h ds } : MuxState E Sk).buffer h = ds :=
      bufSet_apply_self s.buffer h ds
    simp only [List.length_cons, reads, hpop, ih _ hb1, List.map_cons]
    simp [bufSet_bufSet]

/-- Pulling phase: with no buffered frames for the handle and a stream of
well-formed frames, as many reads as there are frames tagged with the handle
return exactly those frames' decoded payloads, in arrival order. -/
theorem reads_stream (dec : Bytes → Except D I) (h : Nat) :
    ∀ (frames : List Bytes) (s : MuxState E Sk),
      s.stream = frames.map .ok → (∀ d ∈ frames, 4 ≤ d.length) →
      s.buffer h = [] →
      (reads dec h (frames.filter (fun d => tagOf d == h)).length s).1 =
        (frames.filter (fun d => tagOf d == h)).map (decodeFrame dec) := by
  intro frames
  induction frames with
  | nil =>
    intro s _ _ _
    simp [reads]
  | cons f rest ih =>
    intro s hs hwf hb
    have hflen : 4 ≤ f.length := hwf f (List.mem_cons_self f rest)
    have hwfr : ∀ d ∈ rest, 4 ≤ d.length := fun d hd => hwf d (List.mem_cons_of_mem f hd)
    by_cases htag : tagOf f = h
    · have hfil : (f :: rest).filter (fun d => tagOf d == h) =
          f :: rest.filter (fun d => tagOf d == h) := by
        simp [List.filter_cons, htag]
      have hmatch := read_match dec h s hb hs hflen htag
      rw [hfil]
      simp only [List.length_cons, reads, hmatch, List.map_cons]
      exact congrArg _ (ih { s with stream := rest.map .ok } rfl hwfr hb)
    · have hfil : (f :: rest).filter (fun d => tagOf d == h) =
          rest.filter (fun d => tagOf d == h) := by
        simp [List.filter_cons, htag]
      rw [hfil]
      have hskip := read_skip dec h s hb hs hflen htag
      set s' : MuxState E Sk :=
        { s with
          stream := rest.map .ok
          buffer := bufSet s.buffer (tagOf f) (s.buffer (tagOf f) ++ [f]) } with hs'
      have hb' : s'.buffer h = [] :=
        (bufSet_apply_ne _ _ (fun hc => htag hc.symm)).trans hb
      have hrec := ih s' rfl hwfr hb'
      cases hn : (rest.filter (fun d => tagOf d == h)).length with
      | zero =>
        rw [hn] at hrec
        simpa [reads] using hrec
      | succ m =>
        rw [hn] at hrec
        simp only [reads, hskip]
        simpa only [reads] using hrec

/-- The result of the pull loop does not depend on the buffer it starts
from: the buffer is only written to, never consulted, while pulling. -/
theorem readLoop_fst_buf (dec : Bytes → Except D I) (h : Nat) :
    ∀ (stream : List (Except E Bytes)) (b1 b2 : Buffer),
      (readLoop dec h stream b1).1 = (readLoop dec h stream b2).1 := by
  intro stream
  induction stream with
  | nil => intro b1 b2; rfl
  | cons x rest ih =>
    intro b1 b2
    match x with
    | .error e => rfl
    | .ok data =>
      by_cases hlt : data.length < 4
      · simp [readLoop, hlt]
      · by_cases htag : tagOf data = h
        · simp [readLoop, hlt, htag]
        · simp only [readLoop, if_neg hlt, if_neg htag]
          exact ih _ _

/-- The pull loop skips over any run of well-formed frames for other
handles: its result is that of pulling from the rest of the stream. -/
theorem readLoop_skip (dec : Bytes → Except D I) (h : Nat) :
    ∀ (pre : List Bytes) (tail : List (Except E Bytes)) (buf : Buffer),
      (∀ d ∈ pre, 4 ≤ d.length ∧ tagOf d ≠ h) →
      (readLoop dec h (pre.map .ok ++ tail) buf).1 = (readLoop dec h tail buf).1 := by
  intro pre
  induction pre with
  | nil => intro tail buf _; rfl
  | cons f rest ih =>
    intro tail buf hpre
    obtain ⟨hlen, htag⟩ := hpre f (List.mem_cons_self f rest)
    have hlt : ¬ f.length < 4 := Nat.not_lt.mpr hlen
    simp only [List.map_cons, List.cons_append, readLoop, if_neg hlt, if_neg htag]
    exact (ih tail _ (fun d hd => hpre d (List.mem_cons_of_mem f hd))).trans
      (readLoop_fst_buf dec h tail _ buf)

/-- A read with no buffered frame for the handle is the pull loop on the
current stream. -/
theorem read_fst_of_empty (dec : Bytes → Except D I) (h : Nat)
    (s : MuxState E Sk) (hb : s.buffer h = []) :
    (read dec h s).1 = (readLoop dec h s.stream s.buffer).1 := by
  simp only [read, hb]

/-- C1. Per-handle FIFO delivery: (i) a read first pops the oldest buffered
frame for the requested handle, without touching the stream; (ii) a pulled
frame whose leading handle differs from the requested one is never dropped
but appended to that other handle's buffer queue, and the read pulls again;
(iii) for any stream of well-formed frames arriving in any interleaving of
handles, repeated reads for handle h return exactly the decoded payloads of
the buffered frames for h followed by the frames tagged h, in arrival
order. -/
theorem read_fifo_per_handle (dec : Bytes → Except D I) (h : Nat) :
    (∀ (s : MuxState E Sk) (d : Bytes) (ds : List Bytes), s.buffer h = d :: ds →
      read dec h s = (decodeFrame dec d, { s with buffer := bufSet s.buffer h ds }))
    ∧ (∀ (s : MuxState E Sk) (d : Bytes) (rest : List (Except E Bytes)),
        s.buffer h = [] → s.stream = .ok d :: rest → 4 ≤ d.length → tagOf d ≠ h →
        read dec h s =
          read dec h
            { s with
              stream := rest
              buffer := bufSet s.buffer (tagOf d) (s.buffer (tagOf d) ++ [d]) })
    ∧ (∀ (frames : List Bytes) (s : MuxState E Sk),
        s.stream = frames.map .ok → (∀ d ∈ frames, 4 ≤ d.length) →
        (reads dec h ((s.buffer h).length +
            (frames.filter (fun d => tagOf d == h)).length) s).1 =
          (s.buffer h ++ frames.filter (fun d => tagOf d == h)).map (decodeFrame dec)) := by
  refine ⟨fun s d ds hb => read_pop dec h s hb,
    fun s d rest hb hs hlen htag => read_skip dec h s hb hs hlen htag,
    fun frames s hs hwf => ?_⟩
  rw [reads_add]
  have hdrain := reads_drain dec h (s.buffer h) s rfl
  rw [hdrain]
  simp only [List.map_append]
  exact congrArg _ (reads_stream dec h frames _ hs hwf (bufSet_apply_self s.buffer h []))

/-- C3. Read-side error taxonomy: with any run of well-formed frames for
other handles possibly pulled and buffered first, a read fails with
Terminated exactly when the stream is exhausted before a matching frame,
with Stream e exactly when the stream yields an error, with Insufficient
when an item shorter than 4 bytes arrives, and returns the payload decode —
a Serde error exactly when decoding fails — both for a freshly pulled
matching frame and for a previously buffered one. -/
theorem read_error_taxonomy (dec : Bytes → Except D I) (h : Nat) :
    (∀ (s : MuxState E Sk) (d : Bytes) (ds : List Bytes), s.buffer h = d :: ds →
      (read dec h s).1 = (dec (d.drop 4)).mapError .Serde)
    ∧ (∀ (s : MuxState E Sk) (pre : List Bytes),
        s.buffer h = [] → (∀ d ∈ pre, 4 ≤ d.length ∧ tagOf d ≠ h) →
        s.stream = pre.map .ok →
        (read dec h s).1 = .error .Terminated)
    ∧ (∀ (s : MuxState E Sk) (pre : List Bytes) (e : E) (tail : List (Except E Bytes)),
        s.buffer h = [] → (∀ d ∈ pre, 4 ≤ d.length ∧ tagOf d ≠ h) →
        s.stream = pre.map .ok ++ (.error e :: tail) →
        (read dec h s).1 = .error (.Stream e))
    ∧ (∀ (s : MuxState E Sk) (pre : List Bytes) (d : Bytes) (tail : List (Except E Bytes)),
        s.buffer h = [] → (∀ d ∈ pre, 4 ≤ d.length ∧ tagOf d ≠ h) →
        s.stream = pre.map .ok ++ (.ok d :: tail) → d.length < 4 →
        (read dec h s).1 = .error .Insufficient)
    ∧ (∀ (s : MuxState E Sk) (pre : List Bytes) (d : Bytes) (tail : List (Except E Bytes)),
        s.buffer h = [] → (∀ d ∈ pre, 4 ≤ d.length ∧ tagOf d ≠ h) →
        s.stream = pre.map .ok ++ (.ok d :: tail) → 4 ≤ d.length → tagOf d = h →
        (read dec h s).1 = (dec (d.drop 4)).mapError .Serde) := by
  refine ⟨fun s d ds hb => ?_, fun s pre hb hpre hs => ?_,
    fun s pre e tail hb hpre hs => ?_, fun s pre d tail hb hpre hs hlen => ?_,
    fun s pre d tail hb hpre hs hlen htag => ?_⟩
  · rw [read_pop dec h s hb]
    rfl
  · rw [read_fst_of_empty dec h s hb, hs, ← List.append_nil (pre.map Except.ok),
      readLoop_skip dec h pre [] s.buffer hpre]
    rfl
  · rw [read_fst_of_empty dec h s hb, hs,
      readLoop_skip dec h pre (.error e :: tail) s.buffer hpre]
    rfl
  · rw [read_fst_of_empty dec h s hb, hs,
      readLoop_skip dec h pre (.ok d :: tail) s.buffer hpre]
    simp [readLoop, hlen]
  · rw [read_fst_of_empty dec h s hb, hs,
      readLoop_skip dec h pre (.ok d :: tail) s.buffer hpre]
    have hlt : ¬ d.length < 4 := Nat.not_lt.mpr hlen
    simp [readLoop, if_neg hlt, htag, decodeFrame]

/-- C4 (amended). A physical inbound item of length 0 to 3 bytes at the head
of the stream makes the next read that consults the stream — a read for any
handle with an empty buffer queue — fail with Insufficient, consuming the
item without buffering it. -/
theorem read_short_frame (dec : Bytes → Except D I) (h : Nat) (s : MuxState E Sk)
    {d : Bytes} {rest : List (Except E Bytes)}
    (hb : s.buffer h = []) (hs : s.stream = .ok d :: rest) (hlen : d.length < 4) :
    read dec h s = (.error .Insufficient, { s with stream := rest }) := by
  simp only [read, hb, hs, readLoop, if_pos hlen]

/-- A concrete decoder instance (the codec is pluggable in the source):
decodes a payload to its first byte. -/
def decHead : Bytes → Except Unit Nat := fun b => .ok (b.headD 0)

/-- Concrete frame list: tags 1, 2, 1. -/
def frames1 : List Bytes := [[0, 0, 0, 1, 10], [0, 0, 0, 2, 20], [0, 0, 0, 1, 11]]

/-- Concrete multiplexer state with an empty buffer over frames1. -/
def st1 : MuxState Unit Unit := ⟨frames1.map .ok, 1, (), fun _ => []⟩

/-- Concrete state whose stream holds one well-formed frame tagged 2. -/
def st3 : MuxState Unit Unit := ⟨[.ok [0, 0, 0, 2, 20]], 1, (), fun _ => []⟩

/-- Concrete state whose stream errors after one frame for another handle. -/
def stErr : MuxState Unit Unit := ⟨[.ok [0, 0, 0, 2, 20], .error ()], 1, (), fun _ => []⟩

/-- Concrete state whose stream head is a 2-byte (malformed) item. -/
def stShort : MuxState Unit Unit := ⟨[.ok [7, 7]], 1, (), fun _ => []⟩

/-- Concrete state with a buffered frame for handle 0 and a malformed
1-byte item at the head of the stream. -/
def stBuf : MuxState Unit Unit :=
  ⟨[.ok [9]], 1, (), fun k => if k = 0 then [[0, 0, 0, 0, 42]] else []⟩

theorem read_fifo_per_handle_witness :
    (reads decHead 1 ((st1.buffer 1).length +
        (frames1.filter (fun d => tagOf d == 1)).length) st1).1 =
      (st1.buffer 1 ++ frames1.filter (fun d => tagOf d == 1)).map (decodeFrame decHead) :=
  (read_fifo_per_handle decHead 1).2.2 frames1 st1 rfl (by decide)

theorem read_error_taxonomy_witness :
    (read decHead 0 stBuf).1 = .ok 42
    ∧ (read decHead 1 st3).1 = .error .Terminated
    ∧ (read decHead 1 stErr).1 = .error (.Stream ())
    ∧ (read decHead 1 stShort).1 = .error .Insufficient
    ∧ (read decHead 2 st3).1 = .ok 20 :=
  ⟨(read_error_taxonomy decHead 0).1 stBuf [0, 0, 0, 0, 42] [] rfl,
    (read_error_taxonomy decHead 1).2.1 st3 [[0, 0, 0, 2, 20]] rfl (by decide) rfl,
    (read_error_taxonomy decHead 1).2.2.1 stErr [[0, 0, 0, 2, 20]] () [] rfl (by decide) rfl,
    (read_error_taxonomy decHead 1).2.2.2.1 stShort [] [7, 7] [] rfl (by decide) rfl
      (by decide),
    (read_error_taxonomy decHead 2).2.2.2.2 st3 [] [0, 0, 0, 2, 20] [] rfl (by decide) rfl
      (by decide) (by decide)⟩

/-- C4 counterexample: with the 1-byte item [9] at the head of the physical
stream, a read for handle 0 — which has a buffered frame — returns that
buffered value instead of failing with Insufficient. -/
theorem read_short_frame_cex :
    (read decHead 0 stBuf).1 = .ok 42
    ∧ (read decHead 0 stBuf).1 ≠ .error .Insufficient := by
  constructor
  · rfl
  · exact fun hc => Except.noConfusion hc

theorem read_short_frame_witness :
    read decHead 3 stShort = (.error .Insufficient, { stShort with stream := [] }) :=
  read_short_frame decHead 3 stShort rfl rfl (by decide)

/-- TransportInner::next_id: returns the current counter value and advances
the counter by 2.  The counter is a u32, so the advance wraps at
4294967296 = 2^32 (release-mode wrapping semantics). -/
def next_id (s : MuxState E Sk) : Nat × MuxState E Sk :=
  (s.nextId, { s with nextId := (s.nextId + 2) % 4294967296 })

/-- The handle returned by the (k+1)-th call to next_id starting from s. -/
def allocIdx (s : MuxState E Sk) : Nat → Nat
  | 0 => (next_id s).1
  | k + 1 => allocIdx (next_id s).2 k

/-- The transport half of an engine constructor: the multiplexer state plus
the numeric id the root transport is bound to. -/
structure EngineSetup (E Sk : Type) where
  mux : MuxState E Sk
  rootId : Nat

/-- Unravel::new: counter starts at 1, empty buffer, root transport bound to
handle 0. -/
def unravelNew (stream : List (Except E Bytes)) (sink : Sk) : EngineSetup E Sk :=
  ⟨⟨stream, 1, sink, fun _ => []⟩, 0⟩

/-- Coalesce::new: counter starts at 2, empty buffer, root transport bound
to handle 0. -/
def coalesceNew (stream : List (Except E Bytes)) (sink : Sk) : EngineSetup E Sk :=
  ⟨⟨stream, 2, sink, fun _ => []⟩, 0⟩

/-- Closed form of the allocation sequence: the (k+1)-th allocated handle is
the start value plus 2k, reduced mod 2^32. -/
theorem allocIdx_closed :
    ∀ (k : Nat) (s : MuxState E Sk), s.nextId < 4294967296 →
      allocIdx s k = (s.nextId + 2 * k) % 4294967296 := by
  intro k
  induction k with
  | zero =>
    intro s hlt
    simp only [allocIdx, next_id]
    omega
  | succ k ih =>
    intro s hlt
    have h2 : (s.nextId + 2) % 4294967296 < 4294967296 := Nat.mod_lt _ (by norm_num)
    have hrec := ih (next_id s).2 h2
    rw [show allocIdx s (k + 1) = allocIdx (next_id s).2 k from rfl, hrec]
    show ((s.nextId + 2) % 4294967296 + 2 * k) % 4294967296 = _
    rw [Nat.mod_add_mod]
    congr 1
    ring

/-- A concrete Unravel-side engine setup over a unit stream/sink pair. -/
def uSetup : EngineSetup Unit Unit := unravelNew [] ()

/-- A concrete Coalesce-side engine setup over a unit stream/sink pair. -/
def cSetup : EngineSetup Unit Unit := coalesceNew [] ()

/-- C2 counterexample: the u32 counter wraps, so the 2^31-th handle the
value-reconstructing endpoint allocates is 0 — the reserved root handle. -/
theorem handle_allocation_cex :
    allocIdx cSetup.mux 2147483647 = 0 := by
  rw [allocIdx_closed 2147483647 cSetup.mux (show (2 : Nat) < 4294967296 by norm_num)]
  show (2 + 2 * 2147483647) % 4294967296 = 0
  norm_num

/-- C2 (amended). Unravel::new starts the counter at 1 and Coalesce::new at
2, both binding the root exchange to handle 0; next_id returns the current
counter and advances it by 2 (wrapping as a u32); the serializing endpoint's
self-allocated handles are always odd and never 0, the reconstructing
endpoint's are always even, the two sets never intersect, and the
reconstructing endpoint never allocates 0 as long as it performs fewer than
2^31 allocations (its 2^31-th allocation wraps the u32 counter to 0). -/
theorem handle_allocation (stream : List (Except E Bytes)) (sink : Sk) :
    (unravelNew stream sink).mux.nextId = 1
    ∧ (coalesceNew stream sink).mux.nextId = 2
    ∧ (unravelNew stream sink).rootId = 0
    ∧ (coalesceNew stream sink).rootId = 0
    ∧ (∀ s : MuxState E Sk, (next_id s).1 = s.nextId
        ∧ (next_id s).2.nextId = (s.nextId + 2) % 4294967296)
    ∧ (∀ j, allocIdx (unravelNew stream sink).mux j % 2 = 1)
    ∧ (∀ k, allocIdx (coalesceNew stream sink).mux k % 2 = 0)
    ∧ (∀ j k, allocIdx (unravelNew stream sink).mux j ≠
        allocIdx (coalesceNew stream sink).mux k)
    ∧ (∀ j, allocIdx (unravelNew stream sink).mux j ≠ 0)
    ∧ (∀ k, k < 2147483647 → allocIdx (coalesceNew stream sink).mux k ≠ 0) := by
  have hu : ∀ j, allocIdx (unravelNew stream sink).mux j = (1 + 2 * j) % 4294967296 :=
    fun j => allocIdx_closed j _ (show (1 : Nat) < 4294967296 by norm_num)
  have hc : ∀ k, allocIdx (coalesceNew stream sink).mux k = (2 + 2 * k) % 4294967296 :=
    fun k => allocIdx_closed k _ (show (2 : Nat) < 4294967296 by norm_num)
  have huodd : ∀ j, allocIdx (unravelNew stream sink).mux j % 2 = 1 := by
    intro j; rw [hu]; omega
  have hceven : ∀ k, allocIdx (coalesceNew stream sink).mux k % 2 = 0 := by
    intro k; rw [hc]; omega
  refine ⟨rfl, rfl, rfl, rfl, fun s => ⟨rfl, rfl⟩, huodd, hceven, ?_, ?_, ?_⟩
  · intro j k hne
    have h1 := huodd j
    have h2 := hceven k
    rw [hne] at h1
    omega
  · intro j h0
    have h1 := huodd j
    rw [h0] at h1
    omega
  · intro k hk h0
    rw [hc] at h0
    omega

theorem handle_allocation_witness :
    allocIdx (unravelNew (E := Unit) [] ()).mux 3 ≠
      allocIdx (coalesceNew (E := Unit) [] ()).mux 3
    ∧ allocIdx (coalesceNew (E := Unit) [] ()).mux 3 ≠ 0 :=
  ⟨(handle_allocation [] ()).2.2.2.2.2.2.2.1 3 3,
    (handle_allocation [] ()).2.2.2.2.2.2.2.2.2 3 (by norm_num)⟩

/-- The transport value handed to the value-protocol layer: its own numeric
id (the multiplexer and the spawner are shared by reference and cloned
unchanged). -/
structure TransportRep where
  id : Nat
deriving DecidableEq

/-- CloneContext::fork_owned for Transport: allocate a fresh id from the
shared counter, return a transport bound to it plus the numeric id. -/
def fork_owned (s : MuxState E Sk) : (TransportRep × Nat) × MuxState E Sk :=
  let r := next_id s
  ((⟨r.1⟩, r.1), r.2)

/-- CloneContext::join_owned for Transport: bind a transport to the given id
on the same multiplexer, without allocating. -/
def join_owned (i : Nat) (s : MuxState E Sk) : TransportRep × MuxState E Sk :=
  (⟨i⟩, s)

/-- ShareContext::fork_shared for Transport. -/
def fork_shared (s : MuxState E Sk) : (TransportRep × Nat) × MuxState E Sk :=
  let r := next_id s
  ((⟨r.1⟩, r.1), r.2)

/-- ShareContext::join_shared for Transport. -/
def join_shared (i : Nat) (s : MuxState E Sk) : TransportRep × MuxState E Sk :=
  (⟨i⟩, s)

/-- ReferenceContext::fork_ref for Transport. -/
def fork_ref (s : MuxState E Sk) : (TransportRep × Nat) × MuxState E Sk :=
  let r := next_id s
  ((⟨r.1⟩, r.1), r.2)

/-- ReferenceContext::join_ref for Transport. -/
def join_ref (i : Nat) (s : MuxState E Sk) : TransportRep × MuxState E Sk :=
  (⟨i⟩, s)

/-- C8. The owned, shared and reference fork/join flavors are behaviorally
identical: every fork flavor allocates one fresh id from the same shared
counter and returns a transport bound to that id together with the id,
producing identical results and state changes; every join flavor returns a
transport bound to the given id without advancing the counter or otherwise
changing the multiplexer state. -/
theorem fork_join_flavors (s : MuxState E Sk) (i : Nat) :
    fork_owned s = fork_shared s
    ∧ fork_shared s = fork_ref s
    ∧ fork_owned s =
        ((⟨s.nextId⟩, s.nextId), { s with nextId := (s.nextId + 2) % 4294967296 })
    ∧ (fork_owned s).1.1.id = (fork_owned s).1.2
    ∧ join_owned i s = join_shared i s
    ∧ join_shared i s = join_ref i s
    ∧ join_owned i s = (⟨i⟩, s) :=
  ⟨rfl, rfl, rfl, rfl, rfl, rfl, rfl⟩

variable {Es : Type}

/-- Write::write for Transport: build the 4-byte big-endian id, append the
encoded payload, and submit the single resulting item to the physical sink;
the codec (to_vec) and the sink (start_send) are pluggable. -/
def write (enc : I → Except D Bytes) (send : Sk → Bytes → Except Es Sk)
    (id : Nat) (item : I) (s : MuxState E Sk) :
    Except (SerdeWriteError Es D) Unit × MuxState E Sk :=
  match enc item with
  | .error e => (.error (.Serde e), s)
  | .ok p =>
    match send s.sink (natToBe32 id ++ p) with
    | .error e => (.error (.Sink e), s)
    | .ok sk => (.ok (), { s with sink := sk })

/-- The always-accepting queue sink: start_send appends the item. -/
def enqueueSend : List Bytes → Bytes → Except Empty (List Bytes) :=
  fun q b => .ok (q ++ [b])

/-- C5. Wire frame layout of writes: a successful write enqueues exactly one
item on the physical sink, consisting of the 4-byte big-endian handle
followed by the encoded payload (so the read side recovers the handle as the
frame's tag); the write fails with Serde exactly when encoding fails and
with Sink exactly when the sink rejects the item. -/
theorem write_frame_layout (enc : I → Except D Bytes) (id : Nat) :
    (∀ (item : I) (p : Bytes) (s : MuxState E (List Bytes)), enc item = .ok p →
      write enc enqueueSend id item s =
        (.ok (), { s with sink := s.sink ++ [natToBe32 id ++ p] }))
    ∧ (natToBe32 id).length = 4
    ∧ (id < 4294967296 → ∀ p : Bytes, tagOf (natToBe32 id ++ p) = id)
    ∧ (∀ (send : Sk → Bytes → Except Es Sk) (item : I) (e : D) (s : MuxState E Sk),
        enc item = .error e → (write enc send id item s).1 = .error (.Serde e))
    ∧ (∀ (send : Sk → Bytes → Except Es Sk) (item : I) (p : Bytes) (e : Es)
        (s : MuxState E Sk),
        enc item = .ok p → send s.sink (natToBe32 id ++ p) = .error e →
        (write enc send id item s).1 = .error (.Sink e)) := by
  refine ⟨fun item p s henc => ?_, rfl, fun hid p => ?_,
    fun send item e s henc => ?_, fun send item p e s henc hsend => ?_⟩
  · simp only [write, henc, enqueueSend]
  · simp only [tagOf, natToBe32, List.cons_append, beToNat32]
    omega
  · simp only [write, henc]
  · simp only [write, henc, hsend]

/-- A concrete encoder instance: a number becomes a single payload byte. -/
def encByte : Nat → Except Unit Bytes := fun n => .ok [n]

/-- A concrete always-failing encoder instance. -/
def encFail : Nat → Except Unit Bytes := fun _ => .error ()

/-- A concrete state whose sink is an empty queue. -/
def stW : MuxState Unit (List Bytes) := ⟨[], 5, [], fun _ => []⟩

theorem write_frame_layout_witness :
    write encByte enqueueSend 3 9 stW = (.ok (), { stW with sink := [[0, 0, 0, 3, 9]] })
    ∧ tagOf (natToBe32 3 ++ [9]) = 3
    ∧ (write encFail enqueueSend 3 9 stW).1 = .error (.Serde ()) :=
  ⟨(@write_frame_layout Unit Unit Unit Nat Unit encByte 3).1 9 [9] stW rfl,
    (@write_frame_layout Unit Unit Unit Nat Unit encByte 3).2.2.1
      (by norm_num) [9],
    (write_frame_layout (E := Unit) encFail 3).2.2.2.1 enqueueSend 9 () stW rfl⟩

/-- C10. Write is atomic on encode failure: when encoding fails, write
returns the Serde error with the whole multiplexer state (sink included)
unchanged, and the sink is never consulted — the result is the same for
every possible sink. -/
theorem write_encode_atomic (enc : I → Except D Bytes)
    (send send2 : Sk → Bytes → Except Es Sk) (id : Nat) (item : I) (e : D)
    (s : MuxState E Sk) (henc : enc item = .error e) :
    write enc send id item s = (.error (.Serde e), s)
    ∧ write enc send id item s = write enc send2 id item s := by
  constructor <;> simp only [write, henc]

theorem write_encode_atomic_witness :
    write encFail enqueueSend 3 9 stW = (.error (.Serde ()), stW) :=
  (write_encode_atomic encFail enqueueSend enqueueSend 3 9 () stW rfl).1

/-- The result of one call to Future::poll: pending (suspended, will be
resumed) or ready with a value. -/
inductive Poll (A : Type) where
  | Pending
  | Ready (a : A)
deriving DecidableEq

/-- UnravelState from src/lib.rs: the two-phase engine state. -/
inductive UnravelState (T U : Type) where
  | Target (t : T)
  | Finalize (u : U)
deriving DecidableEq

variable {T U V Tr Er : Type}

/-- The Finalize arm of the poll loop of Future for Unravel: poll the
finalize future against the transport; on completion the whole engine
returns Ready(Ok(())), and the engine state stays in Finalize. -/
def unravelPollFin (pollF : U → Tr → Poll (Except Er V) × U × Tr)
    (f : U) (tr : Tr) : Poll (Except Er Unit) × UnravelState T U × Tr :=
  match pollF f tr with
  | (.Pending, f2, tr2) => (.Pending, .Finalize f2, tr2)
  | (.Ready (.error e), f2, tr2) => (.Ready (.error e), .Finalize f2, tr2)
  | (.Ready (.ok _), f2, tr2) => (.Ready (.ok ()), .Finalize f2, tr2)

/-- One call to Future::poll for Unravel: in the Target state poll the
target future; on Pending or error stay in Target and surface the outcome;
on completion store the yielded finalize future and continue (the source's
loop) by polling it within the same call.  In the Finalize state poll the
finalize future. -/
def unravelPoll (pollT : T → Tr → Poll (Except Er U) × T × Tr)
    (pollF : U → Tr → Poll (Except Er V) × U × Tr) :
    UnravelState T U → Tr → Poll (Except Er Unit) × UnravelState T U × Tr
  | .Target f, tr =>
    match pollT f tr with
    | (.Pending, f2, tr2) => (.Pending, .Target f2, tr2)
    | (.Ready (.error e), f2, tr2) => (.Ready (.error e), .Target f2, tr2)
    | (.Ready (.ok fin), _, tr2) => unravelPollFin pollF fin tr2
  | .Finalize f, tr => unravelPollFin pollF f tr

/-- The Finalize arm always leaves the engine in the Finalize state. -/
theorem unravelPollFin_state (pollF : U → Tr → Poll (Except Er V) × U × Tr)
    (f : U) (tr : Tr) :
    ∃ f2, (unravelPollFin (T := T) pollF f tr).2.1 = UnravelState.Finalize f2 := by
  rcases hF : pollF f tr with ⟨p, f2, tr2⟩
  cases p with
  | Pending => exact ⟨f2, by simp [unravelPollFin, hF]⟩
  | Ready r =>
    cases r with
    | error e => exact ⟨f2, by simp [unravelPollFin, hF]⟩
    | ok v => exact ⟨f2, by simp [unravelPollFin, hF]⟩

/-- C6. The Unravel engine returns Ok(()) only after both the Target phase
and the yielded Finalize phase have completed; if the Target phase fails,
the engine returns that error at once, in the Target state, and the result
does not depend on the finalize step function at all — no Finalize future is
ever polled. -/
theorem unravel_two_phase (pollT : T → Tr → Poll (Except Er U) × T × Tr)
    (pollF : U → Tr → Poll (Except Er V) × U × Tr) :
    (∀ (f : T) (tr : Tr) (e : Er) (f2 : T) (tr2 : Tr),
      pollT f tr = (.Ready (.error e), f2, tr2) →
      unravelPoll pollT pollF (.Target f) tr = (.Ready (.error e), .Target f2, tr2))
    ∧ (∀ (pollF2 : U → Tr → Poll (Except Er V) × U × Tr) (f : T) (tr : Tr)
        (e : Er) (f2 : T) (tr2 : Tr),
        pollT f tr = (.Ready (.error e), f2, tr2) →
        unravelPoll pollT pollF (.Target f) tr = unravelPoll pollT pollF2 (.Target f) tr)
    ∧ (∀ (f : T) (tr : Tr) (st : UnravelState T U) (tr2 : Tr),
        unravelPoll pollT pollF (.Target f) tr = (.Ready (.ok ()), st, tr2) →
        ∃ fin f1 tr1 f2 v, pollT f tr = (.Ready (.ok fin), f1, tr1)
          ∧ pollF fin tr1 = (.Ready (.ok v), f2, tr2) ∧ st = .Finalize f2)
    ∧ (∀ (f : U) (tr : Tr) (st : UnravelState T U) (tr2 : Tr),
        unravelPoll pollT pollF (.Finalize f) tr = (.Ready (.ok ()), st, tr2) →
        ∃ f2 v, pollF f tr = (.Ready (.ok v), f2, tr2) ∧ st = .Finalize f2) := by
  have hfin : ∀ (f : U) (tr : Tr) (st : UnravelState T U) (tr2 : Tr),
      unravelPollFin (T := T) pollF f tr = (.Ready (.ok ()), st, tr2) →
      ∃ f2 v, pollF f tr = (.Ready (.ok v), f2, tr2) ∧ st = .Finalize f2 := by
    intro f tr st tr2 heq
    rcases hF : pollF f tr with ⟨p, f2, tr2x⟩
    simp only [unravelPollFin, hF] at heq
    cases p with
    | Pending => simp at heq
    | Ready r =>
      cases r with
      | error e => simp at heq
      | ok v =>
        simp only [Prod.mk.injEq] at heq
        obtain ⟨-, hst, htr⟩ := heq
        subst htr
        exact ⟨f2, v, rfl, hst.symm⟩
  refine ⟨fun f tr e f2 tr2 hT => by simp [unravelPoll, hT],
    fun pollF2 f tr e f2 tr2 hT => by simp [unravelPoll, hT],
    fun f tr st tr2 heq => ?_, hfin⟩
  rcases hT : pollT f tr with ⟨p, f1, tr1⟩
  simp only [unravelPoll, hT] at heq
  cases p with
  | Pending => simp at heq
  | Ready r =>
    cases r with
    | error e => simp at heq
    | ok fin =>
      obtain ⟨f2, v, hF, hst⟩ := hfin fin tr1 st tr2 heq
      exact ⟨fin, f1, tr1, f2, v, rfl, hF, hst⟩

/-- C7. The Unravel state machine is one-directional and terminal: from
Finalize the engine never returns to Target; from Target it moves only to
Target (pending or error) or to Finalize; every Target completion yields
exactly one Finalize future, polled at once; once the Finalize future
completes the engine is done and returns Ready(Ok(())). -/
theorem unravel_one_directional (pollT : T → Tr → Poll (Except Er U) × T × Tr)
    (pollF : U → Tr → Poll (Except Er V) × U × Tr) :
    (∀ (f : U) (tr : Tr), ∃ f2,
      (unravelPoll pollT pollF (.Finalize f) tr).2.1 = UnravelState.Finalize f2)
    ∧ (∀ (f : T) (tr : Tr),
        (∃ f2, (unravelPoll pollT pollF (.Target f) tr).2.1 = UnravelState.Target f2)
        ∨ (∃ u, (unravelPoll pollT pollF (.Target f) tr).2.1 = UnravelState.Finalize u))
    ∧ (∀ (f : T) (tr : Tr) (fin : U) (f1 : T) (tr1 : Tr),
        pollT f tr = (.Ready (.ok fin), f1, tr1) →
        unravelPoll pollT pollF (.Target f) tr = unravelPollFin pollF fin tr1
        ∧ ∃ u, (unravelPoll pollT pollF (.Target f) tr).2.1 = UnravelState.Finalize u)
    ∧ (∀ (f : U) (tr : Tr) (f1 : U) (tr1 : Tr) (v : V),
        pollF f tr = (.Ready (.ok v), f1, tr1) →
        unravelPoll pollT pollF (.Finalize f) tr = (.Ready (.ok ()), .Finalize f1, tr1)) := by
  refine ⟨fun f tr => unravelPollFin_state pollF f tr,
    fun f tr => ?_, fun f tr fin f1 tr1 hT => ?_, fun f tr f1 tr1 v hF => ?_⟩
  · rcases hT : pollT f tr with ⟨p, f1, tr1⟩
    cases p with
    | Pending => exact .inl ⟨f1, by simp [unravelPoll, hT]⟩
    | Ready r =>
      cases r with
      | error e => exact .inl ⟨f1, by simp [unravelPoll, hT]⟩
      | ok fin =>
        refine .inr ?_
        have := unravelPollFin_state (T := T) pollF fin tr1
        simpa [unravelPoll, hT] using this
  · have h1 : unravelPoll pollT pollF (.Target f) tr = unravelPollFin pollF fin tr1 := by
      simp [unravelPoll, hT]
    exact ⟨h1, h1 ▸ unravelPollFin_state pollF fin tr1⟩
  · simp [unravelPoll, unravelPollFin, hF]

/-- A concrete target-phase step: completes at once, yielding finalize
future 5 and advancing the transport. -/
def cPollT : Nat → Nat → Poll (Except Unit Nat) × Nat × Nat :=
  fun f tr => (.Ready (.ok 5), f + 1, tr + 1)

/-- A concrete target-phase step that fails at once. -/
def cPollTErr : Nat → Nat → Poll (Except Unit Nat) × Nat × Nat :=
  fun f tr => (.Ready (.error ()), f, tr)

/-- A concrete finalize-phase step: completes at once. -/
def cPollF : Nat → Nat → Poll (Except Unit Nat) × Nat × Nat :=
  fun u tr => (.Ready (.ok u), u, tr + 10)

/-- A concrete finalize-phase step that stays pending. -/
def cPollFPend : Nat → Nat → Poll (Except Unit Nat) × Nat × Nat :=
  fun u tr => (.Pending, u, tr)

theorem unravel_two_phase_witness :
    unravelPoll cPollTErr cPollF (.Target 0) 0 = (.Ready (.error ()), .Target 0, 0)
    ∧ unravelPoll cPollTErr cPollF (.Target 0) 0 =
        unravelPoll cPollTErr cPollFPend (.Target 0) 0 :=
  ⟨(unravel_two_phase cPollTErr cPollF).1 0 0 () 0 0 rfl,
    (unravel_two_phase cPollTErr cPollF).2.1 cPollFPend 0 0 () 0 0 rfl⟩

theorem unravel_one_directional_witness :
    unravelPoll cPollT cPollF (.Target 0) 0 = unravelPollFin cPollF 5 1
    ∧ unravelPoll cPollT cPollF (.Finalize 7) 0 = (.Ready (.ok ()), .Finalize 7, 10) :=
  ⟨((unravel_one_directional cPollT cPollF).2.2.1 0 0 5 1 1 rfl).1,
    (unravel_one_directional cPollT cPollF).2.2.2 7 0 7 10 7 rfl⟩

/-- Scheduling error of the spawn capability (opaque in the source). -/
inductive SpawnError where
  | rejected
deriving DecidableEq

/-- Future for Contextualized: drives the stored protocol future against
the stored transport clone; runF is the future's semantics. -/
def contextualizedRun {F A : Type} (runF : F → Tr → A) (fut : F) (tr : Tr) : A :=
  runF fut tr

/-- The .map(|_| ()) applied to a Contextualized task before it is handed to
the spawn capability: the task's own output is discarded. -/
def mapUnit {A : Type} (task : Tr → A) : Tr → Unit :=
  fun tr => (fun _ => ()) (task tr)

/-- Finalize::finalize for Transport: wrap the future in a Contextualized
task bound to a clone of this transport, discard its output, and hand it to
the spawn capability; the launcher's result is the capability's verdict
(returned as an immediately-ready future in the source). -/
def finalize {F A : Type} (spawn : (Tr → Unit) → Except SpawnError Unit)
    (runF : F → Tr → A) (fut : F) : Except SpawnError Unit :=
  spawn (mapUnit (contextualizedRun runF fut))

/-- FinalizeImmediate::finalize_immediate for Transport: the identical
launch, returned directly instead of wrapped in a ready future. -/
def finalize_immediate {F A : Type} (spawn : (Tr → Unit) → Except SpawnError Unit)
    (runF : F → Tr → A) (fut : F) : Except SpawnError Unit :=
  spawn (mapUnit (contextualizedRun runF fut))

/-- C9. The finalization scheduler succeeds exactly when the spawn
capability accepts the task and fails with the capability's scheduling error
exactly when it rejects the launch; the launched task's own eventual outcome
is discarded (the launcher's result is identical for any two tasks with any
semantics), and finalize and finalize_immediate launch identically. -/
theorem finalize_spawn_only {F G A B : Type}
    (spawn : (Tr → Unit) → Except SpawnError Unit)
    (runF : F → Tr → A) (runG : G → Tr → B) (f : F) (g : G) :
    finalize spawn runF f = finalize spawn runG g
    ∧ finalize_immediate spawn runF f = finalize spawn runF f
    ∧ (spawn (fun _ => ()) = .ok () → finalize spawn runF f = .ok ())
    ∧ (∀ e, spawn (fun _ => ()) = .error e → finalize spawn runF f = .error e) :=
  ⟨rfl, rfl, fun hs => hs, fun _ hs => hs⟩

/-- A concrete always-accepting spawn capability. -/
def cSpawnOk : (Nat → Unit) → Except SpawnError Unit := fun _ => .ok ()

theorem finalize_spawn_only_witness :
    finalize cSpawnOk (fun (n : Nat) (tr : Nat) => n + tr) 3 = .ok () :=
  (finalize_spawn_only cSpawnOk (fun (n : Nat) (tr : Nat) => n + tr)
    (fun (n : Nat) (tr : Nat) => n * tr) 3 4).2.2.1 rfl

end MveT
